import Mathlib

/-!
Verification of the `lichecker` package (dependency resolution and license
policy validation).  The Python source is embedded shallowly: `pip show` is
modelled as a pure function `pipShow : String → String` returning the raw
command output, the process-wide cache is threaded explicitly, and each
exception class becomes a constructor of `VError`.  Python string methods
(`strip`, `lower`, `split`, `replace`, `endswith`, `startswith`, `in`) are
implemented structurally over `List Char` so that concrete runs reduce in
the kernel.
-/

set_option maxRecDepth 100000

namespace Lichecker

/-- Rebuild a `String` from its character list. -/
def strOfChars (l : List Char) : String := ⟨l⟩

/-- Python `str.lower()`. -/
def pyLower (s : String) : String := ⟨s.data.map Char.toLower⟩

/-- Python `str.strip()`: remove leading and trailing whitespace. -/
def pyStrip (s : String) : String :=
  ⟨((s.data.dropWhile Char.isWhitespace).reverse.dropWhile Char.isWhitespace).reverse⟩

/-- Python `s.replace("_", "-")` (single-character pattern, replace all). -/
def pyReplaceUnderscores (s : String) : String :=
  ⟨s.data.map (fun c => if c == '_' then '-' else c)⟩

/-- Python `pat in s` on character lists: `pat` occurs contiguously in the list. -/
def charsContain (pat : List Char) : List Char → Bool
  | [] => pat.isEmpty
  | c :: rest => pat.isPrefixOf (c :: rest) || charsContain pat rest

/-- Python `pat in s` for strings (substring containment). -/
def containsSub (s pat : String) : Bool := charsContain pat.data s.data

/-- Python `str.endswith`. -/
def pyEndsWith (s suf : String) : Bool := suf.data.isSuffixOf s.data

/-- Python `str.startswith`. -/
def pyStartsWith (s p : String) : Bool := p.data.isPrefixOf s.data

/-- Python `s[:-n]`: drop the last `n` characters. -/
def pyDropRight (s : String) (n : Nat) : String := ⟨s.data.take (s.data.length - n)⟩

/-- Python `str.split(sep)` on character lists, fuelled (fuel larger than the
input length makes it total); splits on non-overlapping occurrences of `sep`
left to right. -/
def splitChars (sep : List Char) : Nat → List Char → List (List Char)
  | _, [] => [[]]
  | 0, s => [s]
  | fuel + 1, c :: rest =>
    if sep.isPrefixOf (c :: rest) then
      [] :: splitChars sep fuel ((c :: rest).drop sep.length)
    else
      match splitChars sep fuel rest with
      | [] => [[c]]
      | h :: t => (c :: h) :: t

/-- Python `str.split(sep)` for a non-empty separator. -/
def pySplit (s sep : String) : List String :=
  (splitChars sep.data (s.data.length + 1) s.data).map strOfChars

/-! Ordered string-keyed dictionaries (Python `dict` keeps insertion order;
assigning to an existing key overwrites its value in place). -/

/-- Python `d.get(k)`: first entry with the given key. -/
def dget {α : Type} : List (String × α) → String → Option α
  | [], _ => none
  | p :: rest, k => if p.1 == k then some p.2 else dget rest k

/-- Python `k in d` for a dict. -/
def hasKey {α : Type} (d : List (String × α)) (k : String) : Bool :=
  (dget d k).isSome

/-- Python `d[k] = v`: overwrite in place if the key exists, else append. -/
def dictInsert {α : Type} (d : List (String × α)) (k : String) (v : α) : List (String × α) :=
  if hasKey d k then d.map (fun p => if p.1 == k then (k, v) else p) else d ++ [(k, v)]

/-- Build a Python dict from an association list (later duplicates win). -/
def dictOf {α : Type} (l : List (String × α)) : List (String × α) :=
  l.foldl (fun d kv => dictInsert d kv.1 kv.2) []

/-- Python `a or b` on optional strings (`None` and `""` are falsy). -/
def pyOr (a b : Option String) : Option String :=
  match a with
  | some s => if s == "" then b else some s
  | none => b

/-! `DependencyChecker`: parsing `pip show` output, the process-wide cache,
and breadth-first transitive dependency resolution. -/

/-- A parsed package record (the dict built by `get_package_data`). -/
abbrev PkgData := List (String × String)

/-- `[l.split(": ") for l in out.split("\n") if ": " in l]` filtered to the
entries of length exactly 2. -/
def parseShowPairs (out : String) : List (String × String) :=
  ((pySplit out "\n").filter (fun l => containsSub l ": ")).filterMap (fun l =>
    match pySplit l ": " with
    | [k, v] => some (k, v)
    | _ => none)

/-- `data = {k: v for k, v in lines if v}` in `get_package_data`. -/
def showData (out : String) : PkgData :=
  dictOf ((parseShowPairs out).filter (fun kv => !(kv.2 == "")))

/-- `pkg_name.strip().replace("_", "-")`, the cache-key normalization in
`get_package_data`. -/
def normalizePkgName (s : String) : String := pyReplaceUnderscores (pyStrip s)

/-- The process-wide `DependencyChecker.cache`. -/
abbrev Cache := List (String × PkgData)

/-- `DependencyChecker.get_package_data(pkg_name, cache=useCache)`.  Returns
the record, the updated process-wide cache, and whether a fetch (subprocess
invocation) was performed. -/
def get_package_data (pipShow : String → String) (cache : Cache) (pkg_name0 : String)
    (useCache : Bool) : PkgData × Cache × Bool :=
  let pkg_name := normalizePkgName pkg_name0
  let hit := (if useCache then dget cache pkg_name else none).getD []
  if !hit.isEmpty then (hit, cache, false)
  else
    let data := showData (pipShow pkg_name)
    let cache2 := if useCache && !data.isEmpty then dictInsert cache pkg_name data else cache
    (data, cache2, true)

/-- The pure value that `get_package_data` computes (and that its cache
memoizes) for a name: the parsed output of `pip show` on the normalized
name. -/
def fetchData (pipShow : String → String) (name : String) : PkgData :=
  showData (pipShow (normalizePkgName name))

/-- `DependencyChecker.get_direct_dependencies`: the `Requires` field split
on `", "`, empty if absent. -/
def get_direct_dependencies (pipShow : String → String) (name : String) : List String :=
  match dget (fetchData pipShow name) "Requires" with
  | some r => if !(r == "") then pySplit r ", " else []
  | none => []

/-- The `dependencies` property: the same `Requires` split, with empty names
and the package itself filtered out. -/
def dependencies (pipShow : String → String) (pkg_name : String) : List String :=
  (get_direct_dependencies pipShow pkg_name).filter
    (fun dep => !(dep == "") && !(dep == pkg_name))

/-- The `_transient_dependencies` dict: package name to direct-dependency list. -/
abbrev DepDict := List (String × List String)

/-- The `for dep in new_deps: self._transient_dependencies[dep] = ...` loop body. -/
def addNewDeps (pipShow : String → String) (td : DepDict) (newDeps : List String) : DepDict :=
  newDeps.foldl (fun d dep => dictInsert d dep (get_direct_dependencies pipShow dep)) td

/-- The
`new_deps = []; for p, deps in items(): new_deps += [d for d in deps if d not in dict]`
recomputation of the frontier. -/
def computeNewDeps (td : DepDict) : List String :=
  td.foldl (fun acc p => acc ++ p.2.filter (fun d => !(hasKey td d))) []

/-- The `while new_deps:` loop of `transient_dependencies`, fuelled; `none`
means the fuel ran out before the frontier emptied. -/
def tdLoop (pipShow : String → String) : Nat → DepDict → List String → Option DepDict
  | _, td, [] => some td
  | 0, _, _ :: _ => none
  | fuel + 1, td, d :: ds =>
    let td2 := addNewDeps pipShow td (d :: ds)
    tdLoop pipShow fuel td2 (computeNewDeps td2)

/-- `DependencyChecker.transient_dependencies`: starting from the stored dict
`td0` (empty on a fresh object), seed the frontier with the direct
dependencies not already present and run the expansion loop. -/
def transient_dependencies (pipShow : String → String) (pkg_name : String) (td0 : DepDict)
    (fuel : Nat) : Option DepDict :=
  tdLoop pipShow fuel td0 ((dependencies pipShow pkg_name).filter (fun k => !(hasKey td0 k)))

/-! `LicenseChecker`: license normalization and the validation policy. -/

/-- The typed errors raised by `validate` (the exception classes of
`lichecker.exception`), plus `PyAttributeError`, which models the Python
`AttributeError` raised when `normalize_license_name` is applied to `None`
(`None.strip()`), as happens in `validate` when a package has neither a
license override nor a `License` metadata field. -/
inductive VError : Type
  | UnknownLicense (msg : String)
  | UnidirectionalCodeFlow (msg : String)
  | PythonLinkingException (msg : String)
  | InconsistentLicense (msg : String)
  | BadLicense (msg : String)
  | PyAttributeError
deriving DecidableEq

/-- `LicenseChecker.ALIASES`. -/
def ALIASES : List (String × String) :=
  [("ASL 2.0", "Apache-2.0"), ("Historical Permission Notice and Disclaimer", "HPND")]

/-- `LicenseChecker.normalize_license_name`. -/
def normalize_license_name (li0 : String) : String :=
  let li1 := pyStrip li0
  match dget ALIASES li1 with
  | some v => v
  | none =>
    let li := if pyEndsWith (pyLower li1) " license" then pyStrip (pyDropRight li1 7) else li1
    if containsSub (pyLower li) "bsd" then "BSD"
    else if containsSub (pyLower li) "apache" then "Apache-2.0"
    else if containsSub (pyLower li) "mit" then "MIT"
    else if pyStartsWith li "ZPL" then "ZPL"
    else if containsSub (pyLower li) "lesser gnu public license" then "LGPL"
    else if containsSub (pyLower li) "gnu public license" then "GPL"
    else if containsSub (pyLower li) "python" then "PSF"
    else
      match dget ALIASES li with
      | some v => if v == "" then li else v
      | none => li

/-- The state built by `LicenseChecker.__init__`.  The field defaults mirror
the keyword defaults of `__init__` (`allow_public_domain=True`, every other
flag `False`, empty overrides and whitelist). -/
structure LicenseChecker where
  pkg_name : String
  lic_overrides : List (String × String) := []
  whitelist : List String := []
  allow_nonfree : Bool := false
  allow_viral : Bool := false
  allow_unknown : Bool := false
  allow_unlicense : Bool := false
  allow_lgpl : Bool := false
  allow_ambiguous : Bool := false
  allow_public_domain : Bool := true

/-- `LicenseChecker.__init__` with explicit arguments: lowercases the
override keys and the whitelist entries. -/
def initLicenseChecker (pkg_name : String) (license_overrides : List (String × String))
    (whitelisted_packages : List String)
    (allow_nonfree allow_viral allow_unknown allow_unlicense allow_lgpl allow_ambiguous
      allow_public_domain : Bool) : LicenseChecker :=
  { pkg_name := pkg_name
    lic_overrides := dictOf (license_overrides.map (fun kv => (pyLower kv.1, kv.2)))
    whitelist := whitelisted_packages.map pyLower
    allow_nonfree := allow_nonfree
    allow_viral := allow_viral
    allow_unknown := allow_unknown
    allow_unlicense := allow_unlicense
    allow_lgpl := allow_lgpl
    allow_ambiguous := allow_ambiguous
    allow_public_domain := allow_public_domain }

/-- The `LicenseChecker.license` property: the override for the lowercased
root name, or else the fetched `License` field. -/
def licenseOf (pipShow : String → String) (c : LicenseChecker) : Option String :=
  pyOr (dget c.lic_overrides (pyLower c.pkg_name)) (dget (fetchData pipShow c.pkg_name) "License")

/-- The `LicenseChecker.licenses` property over a resolved dependency dict:
`{p.lower(): overrides.get(p.lower()) or get_package_data(p).get("License")}`.
Note the absence of the parent class's `or "UNKNOWN"` fallback. -/
def licensesOf (pipShow : String → String) (c : LicenseChecker) (td : DepDict) :
    List (String × Option String) :=
  dictOf (td.map (fun p =>
    (pyLower p.1, pyOr (dget c.lic_overrides (pyLower p.1)) (dget (fetchData pipShow p.1) "License"))))

/-- The `valid` list fixed at the top of `validate`. -/
def validNames : List String :=
  ["mit", "apache-2.0", "unlicense", "mpl-2.0", "isc", "bsd", "psf", "zpl", "hpnd"]

/-- The fixed message of the `InconsistentLicense` raise in `validate`. -/
def unlicenseMsg : String :=
  "Unlicense is not global. It doesn't make sense in some jurisdictions.\nIt's inconsistent. Some of the warranty terms cannot, logically, co-exist.\nThe license is short, clearly expressing intent, at the cost of not carefully addressing common license, copy-right and warranty issues."

/-- The policy checks applied to one non-whitelisted `(pkg, li)` pair in the
`validate` loop (the `if/elif` chain after `li = normalize_license_name(li).lower()`). -/
def checkOne (c : LicenseChecker) (pkg : String) (li0 : Option String) : Except VError Unit :=
  match li0 with
  | none => Except.error VError.PyAttributeError
  | some s =>
    let li := pyLower (normalize_license_name s)
    if containsSub li "lgpl" && !c.allow_lgpl then
      Except.error (VError.PythonLinkingException
        (pkg ++ " is licensed under " ++ li ++ " which has unclear implications in the python world"))
    else if containsSub li "gpl" && !c.allow_viral then
      Except.error (VError.UnidirectionalCodeFlow
        (pkg ++ " is licensed under " ++ li ++ " which places restrictions in larger works"))
    else if containsSub li "unlicense" && !c.allow_unlicense then
      Except.error (VError.InconsistentLicense unlicenseMsg)
    else if containsSub li "public domain" then
      if !c.allow_public_domain then
        Except.error (VError.BadLicense "Public domain dedications are not licenses")
      else Except.ok ()
    else if !c.allow_nonfree && !c.allow_unknown then
      if !(validNames.contains li) then
        Except.error (VError.UnknownLicense (pkg ++ " license unknown, no permissions given"))
      else Except.ok ()
    else Except.ok ()

/-- One iteration of the `validate` loop: whitelisted packages are skipped
with no license check, everything else goes through the policy chain. -/
def candidateStep (c : LicenseChecker) (p : String × Option String) : Except VError Unit :=
  if c.whitelist.contains p.1 then Except.ok () else checkOne c p.1 p.2

/-- The `for pkg, li in pkgs:` loop of `validate`: stops at the first raise. -/
def checkCandidates (c : LicenseChecker) : List (String × Option String) → Except VError Unit
  | [] => Except.ok ()
  | p :: rest =>
    match candidateStep c p with
    | Except.ok _ => checkCandidates c rest
    | Except.error e => Except.error e

/-- The candidate list built at the top of `validate`: the root package
first, then the (already lowercased) keys of `licenses`, lowercased again. -/
def candidatesOf (pipShow : String → String) (c : LicenseChecker) (td : DepDict) :
    List (String × Option String) :=
  (pyLower c.pkg_name, licenseOf pipShow c) ::
    (licensesOf pipShow c td).map (fun p => (pyLower p.1, p.2))

/-- `LicenseChecker.validate` end to end: resolve the transitive dependency
dict from a fresh checker, build the candidate list, and run the policy loop.
`none` means the resolution fuel ran out. -/
def validate (pipShow : String → String) (c : LicenseChecker) (fuel : Nat) :
    Option (Except VError Unit) :=
  match transient_dependencies pipShow c.pkg_name [] fuel with
  | none => none
  | some td => some (checkCandidates c (candidatesOf pipShow c td))

/-! Concrete metadata providers used to instantiate the claims. -/

/-- The graph of the spec's end-to-end scenario: root → pkg-a (MIT) →
pkg-b ("GNU General Public License v2"). -/
def pipShow1 : String → String := fun n =>
  if n == "root" then "Name: root\nLicense: MIT\nRequires: pkg-a"
  else if n == "pkg-a" then "Name: pkg-a\nLicense: MIT\nRequires: pkg-b"
  else if n == "pkg-b" then "Name: pkg-b\nLicense: GNU General Public License v2"
  else ""

/-- A root with one dependency whose metadata has no `License` field. -/
def pipShow3 : String → String := fun n =>
  if n == "root" then "Name: root\nLicense: MIT\nRequires: pkg-n"
  else if n == "pkg-n" then "Name: pkg-n\nVersion: 1.0"
  else ""

/-- The cyclic synthetic graph A → B, B → A. -/
def pipShowAB : String → String := fun n =>
  if n == "A" then "Name: A\nRequires: B"
  else if n == "B" then "Name: B\nRequires: A"
  else ""

/-- Provider distinguishing differently-cased spellings of the same package. -/
def pipShowC8 : String → String := fun n =>
  if n == "pkg-a" then "Name: pkg-a\nLicense: MIT"
  else if n == "PKG-A" then "Name: PKG-A\nLicense: MIT"
  else ""

/-! Helper lemmas about the substring test. -/

lemma charsContain_of_isPrefixOf {pat s : List Char} (h : pat.isPrefixOf s = true) :
    charsContain pat s = true := by
  cases s with
  | nil =>
    cases pat with
    | nil => rfl
    | cons c cs => simp [List.isPrefixOf] at h
  | cons c rest => simp [charsContain, h]

lemma charsContain_append_right {pat s : List Char} (a : List Char)
    (h : charsContain pat s = true) : charsContain pat (a ++ s) = true := by
  induction a with
  | nil => simpa using h
  | cons c cs ih => simp [charsContain, ih]

lemma charsContain_self_append (pat t : List Char) : charsContain pat (pat ++ t) = true :=
  charsContain_of_isPrefixOf (List.isPrefixOf_iff_prefix.mpr (List.prefix_append pat t))

lemma charsContain_cons_pat {c : Char} {pat s : List Char}
    (h : charsContain (c :: pat) s = true) : charsContain pat s = true := by
  induction s with
  | nil => simp [charsContain] at h
  | cons d rest ih =>
    simp only [charsContain, Bool.or_eq_true] at h ⊢
    cases h with
    | inl hp =>
      simp only [List.isPrefixOf, Bool.and_eq_true] at hp
      exact Or.inr (charsContain_of_isPrefixOf hp.2)
    | inr hr => exact Or.inr (ih hr)

lemma string_data_append (a b : String) : (a ++ b).data = a.data ++ b.data := rfl

lemma containsSub_msg4_pkg (pkg m li t : String) :
    containsSub (pkg ++ m ++ li ++ t) pkg = true := by
  show charsContain pkg.data (pkg ++ m ++ li ++ t).data = true
  simp only [string_data_append, List.append_assoc]
  exact charsContain_self_append _ _

lemma containsSub_msg4_li (pkg m li t : String) :
    containsSub (pkg ++ m ++ li ++ t) li = true := by
  show charsContain li.data (pkg ++ m ++ li ++ t).data = true
  simp only [string_data_append, List.append_assoc]
  exact charsContain_append_right _ (charsContain_append_right _ (charsContain_self_append _ _))

/-! Helper lemmas about the Python dict model. -/

lemma hasKey_iff {α : Type} (d : List (String × α)) (k : String) :
    hasKey d k = true ↔ ∃ p ∈ d, p.1 = k := by
  induction d with
  | nil => simp [hasKey, dget]
  | cons q rest ih =>
    by_cases hq : q.1 = k
    · have hq2 : (q.1 == k) = true := by simpa using hq
      constructor
      · intro _
        exact ⟨q, List.mem_cons_self q rest, hq⟩
      · intro _
        simp [hasKey, dget, hq2]
    · have hq2 : (q.1 == k) = false := by simp [hq]
      have hstep : hasKey (q :: rest) k = hasKey rest k := by simp [hasKey, dget, hq2]
      rw [hstep, ih]
      constructor
      · rintro ⟨p, hp, hp1⟩
        exact ⟨p, List.mem_cons_of_mem q hp, hp1⟩
      · rintro ⟨p, hp, hp1⟩
        rcases List.mem_cons.mp hp with hp2 | hp2
        · exact absurd (hp2 ▸ hp1) hq
        · exact ⟨p, hp2, hp1⟩

lemma hasKey_dictInsert_self {α : Type} (d : List (String × α)) (k : String) (v : α) :
    hasKey (dictInsert d k v) k = true := by
  unfold dictInsert
  by_cases h : hasKey d k = true
  · rw [if_pos]
    · rw [hasKey_iff] at h ⊢
      obtain ⟨q, hq, hq1⟩ := h
      refine ⟨(k, v), List.mem_map.mpr ⟨q, hq, ?_⟩, rfl⟩
      simp [hq1]
    · simpa using h
  · rw [if_neg]
    · rw [hasKey_iff]
      exact ⟨(k, v), by simp, rfl⟩
    · simpa using h

lemma hasKey_dictInsert_of {α : Type} {d : List (String × α)} {k2 : String} (k : String) (v : α)
    (h2 : hasKey d k2 = true) : hasKey (dictInsert d k v) k2 = true := by
  unfold dictInsert
  by_cases h : hasKey d k = true
  · rw [if_pos (by simpa using h)]
    rw [hasKey_iff] at h2 ⊢
    obtain ⟨q, hq, hq1⟩ := h2
    by_cases hqk : q.1 = k
    · exact ⟨(k, v), List.mem_map.mpr ⟨q, hq, by simp [hqk]⟩, by rw [← hqk, hq1]⟩
    · exact ⟨q, List.mem_map.mpr ⟨q, hq, by simp [hqk]⟩, hq1⟩
  · rw [if_neg (by simpa using h)]
    rw [hasKey_iff] at h2 ⊢
    obtain ⟨q, hq, hq1⟩ := h2
    exact ⟨q, List.mem_append_left _ hq, hq1⟩

lemma hasKey_of_dictInsert {α : Type} {d : List (String × α)} {k k2 : String} {v : α}
    (h : hasKey (dictInsert d k v) k2 = true) : hasKey d k2 = true ∨ k2 = k := by
  unfold dictInsert at h
  by_cases hk : hasKey d k = true
  · rw [if_pos (by simpa using hk)] at h
    rw [hasKey_iff] at h
    obtain ⟨p, hp, hp1⟩ := h
    obtain ⟨q, hq, hfq⟩ := List.mem_map.mp hp
    by_cases hqk : q.1 = k
    · right
      rw [← hfq] at hp1
      simpa [hqk] using hp1.symm
    · left
      rw [hasKey_iff]
      refine ⟨q, hq, ?_⟩
      rw [← hfq] at hp1
      simpa [hqk] using hp1
  · rw [if_neg (by simpa using hk)] at h
    rw [hasKey_iff] at h
    obtain ⟨p, hp, hp1⟩ := h
    rcases List.mem_append.mp hp with hp2 | hp2
    · exact Or.inl ((hasKey_iff d k2).mpr ⟨p, hp2, hp1⟩)
    · right
      simp only [List.mem_singleton] at hp2
      rw [hp2] at hp1
      exact hp1.symm

lemma mem_dictInsert {α : Type} {d : List (String × α)} {k : String} {v : α}
    {p : String × α} (h : p ∈ dictInsert d k v) : p ∈ d ∨ p = (k, v) := by
  unfold dictInsert at h
  by_cases hk : hasKey d k = true
  · rw [if_pos (by simpa using hk)] at h
    obtain ⟨q, hq, hfq⟩ := List.mem_map.mp h
    by_cases hqk : q.1 = k
    · right
      rw [← hfq]
      simp [hqk]
    · left
      rw [← hfq]
      simpa [hqk]
  · rw [if_neg (by simpa using hk)] at h
    rcases List.mem_append.mp h with h2 | h2
    · exact Or.inl h2
    · exact Or.inr (by simpa using h2)

lemma dget_map_replace {α : Type} (d : List (String × α)) (k : String) (v : α)
    (h : hasKey d k = true) :
    dget (d.map (fun p => if p.1 == k then (k, v) else p)) k = some v := by
  induction d with
  | nil => simp [hasKey, dget] at h
  | cons q rest ih =>
    by_cases hq : q.1 = k
    · have hq2 : (q.1 == k) = true := by simpa using hq
      simp [dget, hq2]
    · have hq2 : (q.1 == k) = false := by simp [hq]
      have hrest : hasKey rest k = true := by
        simpa [hasKey, dget, hq2] using h
      simpa [dget, hq2] using ih hrest

lemma dget_append_single {α : Type} (d : List (String × α)) (k : String) (v : α)
    (h : hasKey d k = false) : dget (d ++ [(k, v)]) k = some v := by
  induction d with
  | nil => simp [dget]
  | cons q rest ih =>
    have hq2 : (q.1 == k) = false := by
      by_contra hc
      have hq3 : (q.1 == k) = true := by simpa using hc
      simp [hasKey, dget, hq3] at h
    have hrest : hasKey rest k = false := by
      simpa [hasKey, dget, hq2] using h
    simpa [dget, hq2] using ih hrest

lemma dget_dictInsert_self {α : Type} (d : List (String × α)) (k : String) (v : α) :
    dget (dictInsert d k v) k = some v := by
  unfold dictInsert
  by_cases h : hasKey d k = true
  · rw [if_pos (by simpa using h)]
    exact dget_map_replace d k v h
  · rw [if_neg (by simpa using h)]
    exact dget_append_single d k v (by simpa using h)

/-! Helper lemmas about the breadth-first expansion. -/

lemma hasKey_addNewDeps_of (g : String → String) {td : DepDict} {k : String}
    (l : List String) (h : hasKey td k = true) : hasKey (addNewDeps g td l) k = true := by
  induction l generalizing td with
  | nil => exact h
  | cons d ds ih =>
    exact ih (hasKey_dictInsert_of d (get_direct_dependencies g d) h)

lemma hasKey_addNewDeps_mem (g : String → String) {k : String} (td : DepDict)
    {l : List String} (h : k ∈ l) : hasKey (addNewDeps g td l) k = true := by
  induction l generalizing td with
  | nil => cases h
  | cons d ds ih =>
    rcases List.mem_cons.mp h with h2 | h2
    · subst h2
      exact hasKey_addNewDeps_of g ds (hasKey_dictInsert_self td k _)
    · exact ih _ h2

lemma hasKey_of_addNewDeps (g : String → String) {td : DepDict} {k : String}
    {l : List String} (h : hasKey (addNewDeps g td l) k = true) :
    hasKey td k = true ∨ k ∈ l := by
  induction l generalizing td with
  | nil => exact Or.inl h
  | cons d ds ih =>
    rcases ih h with h2 | h2
    · rcases hasKey_of_dictInsert h2 with h3 | h3
      · exact Or.inl h3
      · exact Or.inr (h3 ▸ List.mem_cons_self d ds)
    · exact Or.inr (List.mem_cons_of_mem d h2)

lemma mem_addNewDeps (g : String → String) {td : DepDict} {p : String × List String}
    {l : List String} (h : p ∈ addNewDeps g td l) :
    p ∈ td ∨ ∃ x ∈ l, p = (x, get_direct_dependencies g x) := by
  induction l generalizing td with
  | nil => exact Or.inl h
  | cons d ds ih =>
    rcases ih h with h2 | ⟨x, hx, h3⟩
    · rcases mem_dictInsert h2 with h3 | h3
      · exact Or.inl h3
      · exact Or.inr ⟨d, List.mem_cons_self d ds, h3⟩
    · exact Or.inr ⟨x, List.mem_cons_of_mem d hx, h3⟩

lemma computeNewDeps_aux (td : DepDict) :
    ∀ (l : List (String × List String)) (acc : List String),
      List.foldl (fun acc2 p => acc2 ++ p.2.filter (fun d => !(hasKey td d))) acc l =
        acc ++ (l.map (fun p => p.2.filter (fun d => !(hasKey td d)))).flatten := by
  intro l
  induction l with
  | nil => intro acc; simp
  | cons b bs ih =>
    intro acc
    simp [List.foldl_cons, ih, List.append_assoc]

lemma computeNewDeps_eq (td : DepDict) :
    computeNewDeps td =
      (td.map (fun p => p.2.filter (fun d => !(hasKey td d)))).flatten := by
  have h := computeNewDeps_aux td td []
  simpa [computeNewDeps] using h

lemma mem_computeNewDeps {td : DepDict} {x : String} (h : x ∈ computeNewDeps td) :
    (∃ p ∈ td, x ∈ p.2) ∧ hasKey td x = false := by
  rw [computeNewDeps_eq] at h
  simp only [List.mem_flatten, List.mem_map] at h
  obtain ⟨s, ⟨p, hp, hfp⟩, hxs⟩ := h
  rw [← hfp] at hxs
  have hmem := List.mem_filter.mp hxs
  refine ⟨⟨p, hp, hmem.1⟩, ?_⟩
  have hb := hmem.2
  simpa using hb

/-- The keys of a dependency dict, as a finite set. -/
def keysF (td : DepDict) : Finset String := (td.map Prod.fst).toFinset

lemma mem_keysF {td : DepDict} {x : String} : x ∈ keysF td ↔ hasKey td x = true := by
  rw [hasKey_iff]
  simp [keysF]

lemma tdLoop_keys (g : String → String) :
    ∀ (fuel : Nat) (td : DepDict) (nd : List String) (r : DepDict),
      tdLoop g fuel td nd = some r →
      (∀ k, hasKey td k = true → hasKey r k = true) ∧ (∀ x ∈ nd, hasKey r x = true) := by
  intro fuel
  induction fuel with
  | zero =>
    intro td nd r h
    cases nd with
    | nil =>
      have : td = r := by simpa [tdLoop] using h
      subst this
      exact ⟨fun k hk => hk, by simp⟩
    | cons d ds => simp [tdLoop] at h
  | succ n ih =>
    intro td nd r h
    cases nd with
    | nil =>
      have : td = r := by simpa [tdLoop] using h
      subst this
      exact ⟨fun k hk => hk, by simp⟩
    | cons d ds =>
      have h2 : tdLoop g n (addNewDeps g td (d :: ds)) (computeNewDeps (addNewDeps g td (d :: ds))) = some r := h
      obtain ⟨h3, _⟩ := ih _ _ _ h2
      refine ⟨fun k hk => h3 k (hasKey_addNewDeps_of g (d :: ds) hk), ?_⟩
      intro x hx
      exact h3 x (hasKey_addNewDeps_mem g td hx)

lemma tdLoop_total (g : String → String) (U : List String)
    (hU : ∀ n ∈ U, ∀ d ∈ get_direct_dependencies g n, d ∈ U) :
    ∀ (fuel : Nat) (td : DepDict) (nd : List String),
      (∀ p ∈ td, p.1 ∈ U ∧ ∀ d ∈ p.2, d ∈ U) →
      (∀ x ∈ nd, x ∈ U ∧ hasKey td x = false) →
      (U.toFinset \ keysF td).card ≤ fuel →
      ∃ r, tdLoop g fuel td nd = some r := by
  intro fuel
  induction fuel with
  | zero =>
    intro td nd htd hnd hcard
    cases nd with
    | nil => exact ⟨td, rfl⟩
    | cons x xs =>
      exfalso
      obtain ⟨hxU, hxK⟩ := hnd x (List.mem_cons_self x xs)
      have hx : x ∈ U.toFinset \ keysF td := by
        rw [Finset.mem_sdiff, List.mem_toFinset]
        refine ⟨hxU, ?_⟩
        rw [mem_keysF, hxK]
        simp
      have hpos := Finset.card_pos.mpr ⟨x, hx⟩
      omega
  | succ n ih =>
    intro td nd htd hnd hcard
    cases nd with
    | nil => exact ⟨td, rfl⟩
    | cons x xs =>
      have htd2mem : ∀ p ∈ addNewDeps g td (x :: xs), p.1 ∈ U ∧ ∀ d ∈ p.2, d ∈ U := by
        intro p hp
        rcases mem_addNewDeps g hp with hold | ⟨y, hy, hpy⟩
        · exact htd p hold
        · have hyU : y ∈ U := (hnd y hy).1
          subst hpy
          exact ⟨hyU, fun d hd => hU y hyU d hd⟩
      have hnd2 : ∀ z ∈ computeNewDeps (addNewDeps g td (x :: xs)),
          z ∈ U ∧ hasKey (addNewDeps g td (x :: xs)) z = false := by
        intro z hz
        obtain ⟨⟨p, hp, hzp⟩, hzk⟩ := mem_computeNewDeps hz
        exact ⟨(htd2mem p hp).2 z hzp, hzk⟩
      have hxdiff : x ∈ U.toFinset \ keysF td := by
        rw [Finset.mem_sdiff, List.mem_toFinset]
        refine ⟨(hnd x (List.mem_cons_self x xs)).1, ?_⟩
        rw [mem_keysF, (hnd x (List.mem_cons_self x xs)).2]
        simp
      have hsub : U.toFinset \ keysF (addNewDeps g td (x :: xs)) ⊆
          (U.toFinset \ keysF td).erase x := by
        intro y hy
        rw [Finset.mem_sdiff] at hy
        rw [Finset.mem_erase, Finset.mem_sdiff]
        refine ⟨?_, hy.1, ?_⟩
        · intro hyx
          subst hyx
          exact hy.2 (mem_keysF.mpr (hasKey_addNewDeps_mem g td (List.mem_cons_self y xs)))
        · intro hyk
          exact hy.2 (mem_keysF.mpr (hasKey_addNewDeps_of g (x :: xs) (mem_keysF.mp hyk)))
      have hcard2 : (U.toFinset \ keysF (addNewDeps g td (x :: xs))).card ≤ n := by
        have h1 := Finset.card_le_card hsub
        have h2 := Finset.card_erase_of_mem hxdiff
        have h3 := Finset.card_pos.mpr ⟨x, hxdiff⟩
        omega
      obtain ⟨r, hr⟩ := ih (addNewDeps g td (x :: xs))
        (computeNewDeps (addNewDeps g td (x :: xs))) htd2mem hnd2 hcard2
      exact ⟨r, hr⟩

/-! Helper lemmas about the validation loop and its error messages. -/

/-- The error kinds whose message (an f-string in the source) names the
offending package; the fixed-text errors impose no constraint. -/
def errNamesPkg (e : VError) (pkg : String) : Prop :=
  match e with
  | VError.PythonLinkingException m => containsSub m pkg = true
  | VError.UnidirectionalCodeFlow m => containsSub m pkg = true
  | VError.UnknownLicense m => containsSub m pkg = true
  | _ => True

/-- The error kinds whose message names the normalized, lowercased license. -/
def errNamesLicense (e : VError) (li : String) : Prop :=
  match e with
  | VError.PythonLinkingException m => containsSub m li = true
  | VError.UnidirectionalCodeFlow m => containsSub m li = true
  | _ => True

lemma containsSub_left (p t : String) : containsSub (p ++ t) p = true := by
  show charsContain p.data (p ++ t).data = true
  rw [string_data_append]
  exact charsContain_self_append p.data t.data

lemma checkOne_error_names {c : LicenseChecker} {pkg : String} {li0 : Option String} {e : VError}
    (h : checkOne c pkg li0 = Except.error e) :
    errNamesPkg e pkg ∧
      ∀ s, li0 = some s → errNamesLicense e (pyLower (normalize_license_name s)) := by
  cases li0 with
  | none =>
    have he : VError.PyAttributeError = e := by
      simpa [checkOne] using h
    subst he
    exact ⟨trivial, fun s hs => by cases hs⟩
  | some s =>
    simp only [checkOne] at h
    split at h
    next h1 =>
      injection h with he
      subst he
      refine ⟨containsSub_msg4_pkg _ _ _ _, ?_⟩
      intro s2 hs2
      cases hs2
      exact containsSub_msg4_li _ _ _ _
    next h1 =>
      split at h
      next h2 =>
        injection h with he
        subst he
        refine ⟨containsSub_msg4_pkg _ _ _ _, ?_⟩
        intro s2 hs2
        cases hs2
        exact containsSub_msg4_li _ _ _ _
      next h2 =>
        split at h
        next h3 =>
          injection h with he
          subst he
          exact ⟨trivial, fun s2 hs2 => trivial⟩
        next h3 =>
          split at h
          next h4 =>
            split at h
            next h5 =>
              injection h with he
              subst he
              exact ⟨trivial, fun s2 hs2 => trivial⟩
            next h5 => simp at h
          next h4 =>
            split at h
            next h5 =>
              split at h
              next h6 =>
                injection h with he
                subst he
                refine ⟨containsSub_left _ _, fun s2 hs2 => trivial⟩
              next h6 => simp at h
            next h5 => simp at h

lemma candidateStep_error_names {c : LicenseChecker} {p : String × Option String} {e : VError}
    (h : candidateStep c p = Except.error e) :
    errNamesPkg e p.1 ∧
      ∀ s, p.2 = some s → errNamesLicense e (pyLower (normalize_license_name s)) := by
  unfold candidateStep at h
  split at h
  · simp at h
  · exact checkOne_error_names h

lemma checkCandidates_ok_append (c : LicenseChecker) :
    ∀ (l1 : List (String × Option String)),
      (∀ q ∈ l1, candidateStep c q = Except.ok ()) →
      ∀ x, checkCandidates c (l1 ++ x) = checkCandidates c x := by
  intro l1
  induction l1 with
  | nil => intro _ x; rfl
  | cons p rest ih =>
    intro hall x
    have hp := hall p (List.mem_cons_self p rest)
    simp only [List.cons_append, checkCandidates, hp]
    exact ih (fun q hq => hall q (List.mem_cons_of_mem p hq)) x

lemma checkCandidates_error_split (c : LicenseChecker) :
    ∀ (l : List (String × Option String)) (e : VError),
      checkCandidates c l = Except.error e →
      ∃ l1 p l2, l = l1 ++ p :: l2 ∧ (∀ q ∈ l1, candidateStep c q = Except.ok ()) ∧
        candidateStep c p = Except.error e := by
  intro l
  induction l with
  | nil => intro e h; simp [checkCandidates] at h
  | cons p rest ih =>
    intro e h
    cases hs : candidateStep c p with
    | ok u =>
      have hr : checkCandidates c rest = Except.error e := by
        simpa [checkCandidates, hs] using h
      obtain ⟨l1, q, l2, heq, h1, h2⟩ := ih e hr
      refine ⟨p :: l1, q, l2, by rw [heq]; rfl, ?_, h2⟩
      intro q2 hq2
      rcases List.mem_cons.mp hq2 with hq3 | hq3
      · subst hq3
        cases u
        exact hs
      · exact h1 q2 hq3
    | error e2 =>
      have he : e2 = e := by
        have h2 := h
        simp only [checkCandidates, hs] at h2
        injection h2
      subst he
      refine ⟨[], p, rest, rfl, ?_, hs⟩
      intro q hq
      cases hq

/-! The claims. -/

/-- Claim C1: the spec's end-to-end scenario — root with direct dependency
pkg-a (MIT) and transitive dependency pkg-b ("GNU General Public License
v2") — is asserted to fail with UnidirectionalCodeFlow naming pkg-b under
the default policy and to succeed with allow_viral=true.  Evaluating the
embedded code shows it instead raises UnknownLicense (naming pkg-b) in both
cases: the normalizer's "gnu public license" pattern never matches the
canonical "GNU General Public License ..." wording, so the token escapes
the gpl check. -/
theorem c1_gpl_scenario_eval :
    validate pipShow1 (initLicenseChecker "root" [] [] false false false false false false true) 3 =
        some (Except.error (VError.UnknownLicense "pkg-b license unknown, no permissions given")) ∧
    validate pipShow1 (initLicenseChecker "root" [] [] false true false false false false true) 3 =
        some (Except.error (VError.UnknownLicense "pkg-b license unknown, no permissions given")) :=
  ⟨rfl, rfl⟩

/-- Claim C2: of the spec's three normalization examples the first two hold,
but normalize("GNU Lesser General Public License") returns the
suffix-stripped input "GNU Lesser General Public", not "LGPL": the
"lesser gnu public license" pattern has the words in an order that cannot
match. -/
theorem c2_normalize_examples :
    normalize_license_name "Apache Software License" = "Apache-2.0" ∧
    normalize_license_name "MIT License" = "MIT" ∧
    normalize_license_name "GNU Lesser General Public License" = "GNU Lesser General Public" ∧
    normalize_license_name "GNU Lesser General Public License" ≠ "LGPL" :=
  ⟨rfl, rfl, rfl, by decide⟩

/-- Claim C3: for a non-whitelisted dependency with no license field and no
override, the claim asserts validate fails with UnknownLicense.  Evaluating
the embedded code: `LicenseChecker.licenses` (unlike the parent class) has
no `or "UNKNOWN"` fallback, so the license is None and
`normalize_license_name(None)` raises AttributeError (modelled by
PyAttributeError), not UnknownLicense. -/
theorem c3_missing_license_eval :
    validate pipShow3 (initLicenseChecker "root" [] [] false false false false false false true) 2 =
      some (Except.error VError.PyAttributeError) := rfl

/-- Claim C4 counterexample: with allow_lgpl=true and allow_viral=false, a
package whose canonical token is "lgpl" IS rejected by the subsequent gpl
check (the claim says it is not): since "lgpl" contains "gpl", the elif
raises UnidirectionalCodeFlow. -/
theorem c4_counterexample :
    checkCandidates (initLicenseChecker "root" [] [] false false false false true false true)
        [("pkg-l", some "LGPL")] =
      Except.error (VError.UnidirectionalCodeFlow
        "pkg-l is licensed under lgpl which places restrictions in larger works") := rfl

/-- Claim C4 (amended): for any package whose lowercased canonical token
contains "lgpl", checkOne fails with PythonLinkingException when allow_lgpl
is false; when allow_lgpl is true the token still contains "gpl", so the
next elif rejects it with UnidirectionalCodeFlow unless allow_viral is also
true. -/
theorem c4_lgpl_precedence (c : LicenseChecker) (pkg s : String)
    (h : containsSub (pyLower (normalize_license_name s)) "lgpl" = true) :
    (c.allow_lgpl = false →
      checkOne c pkg (some s) = Except.error (VError.PythonLinkingException
        (pkg ++ " is licensed under " ++ pyLower (normalize_license_name s) ++
          " which has unclear implications in the python world"))) ∧
    (c.allow_lgpl = true → c.allow_viral = false →
      checkOne c pkg (some s) = Except.error (VError.UnidirectionalCodeFlow
        (pkg ++ " is licensed under " ++ pyLower (normalize_license_name s) ++
          " which places restrictions in larger works"))) := by
  have hgpl : containsSub (pyLower (normalize_license_name s)) "gpl" = true := by
    have h2 : charsContain ('l' :: "gpl".data) (pyLower (normalize_license_name s)).data = true := h
    exact charsContain_cons_pat h2
  constructor
  · intro hfl
    simp [checkOne, h, hfl]
  · intro htl hvf
    simp [checkOne, h, hgpl, htl, hvf]

/-- Claim C4 witness: the amended theorem at the concrete token "LGPL". -/
theorem c4_witness :
    checkOne (initLicenseChecker "root" [] [] false false false false true false true) "pkg-l"
        (some "LGPL") =
      Except.error (VError.UnidirectionalCodeFlow
        ("pkg-l" ++ " is licensed under " ++ pyLower (normalize_license_name "LGPL") ++
          " which places restrictions in larger works")) :=
  (c4_lgpl_precedence (initLicenseChecker "root" [] [] false false false false true false true)
    "pkg-l" "LGPL" (by decide)).2 rfl rfl

/-- Claim C5: transient_dependencies terminates on every finite dependency
graph (given a finite universe closed under direct dependencies, fuel
|U| + 1 suffices), and on the cyclic graph A → B, B → A resolution from a
fresh checker terminates with exactly {A, B} as keys. -/
theorem c5_termination_and_cycle :
    (∀ (pipShow : String → String) (root : String) (U : List String),
      (∀ d ∈ dependencies pipShow root, d ∈ U) →
      (∀ n ∈ U, ∀ d ∈ get_direct_dependencies pipShow n, d ∈ U) →
      ∃ td, transient_dependencies pipShow root [] (U.length + 1) = some td) ∧
    transient_dependencies pipShowAB "A" [] 3 = some [("B", ["A"]), ("A", ["B"])] ∧
    (∀ x : String, hasKey [("B", ["A"]), ("A", ["B"])] x = true ↔ x = "A" ∨ x = "B") := by
  refine ⟨?_, rfl, ?_⟩
  · intro pipShow root U hdep hU
    unfold transient_dependencies
    apply tdLoop_total pipShow U hU (U.length + 1) []
    · intro p hp
      cases hp
    · intro x hx
      have hx2 := List.mem_filter.mp hx
      exact ⟨hdep x hx2.1, rfl⟩
    · have h1 : (U.toFinset \ keysF []).card ≤ U.toFinset.card := by
        apply Finset.card_le_card
        exact Finset.sdiff_subset
      have h2 : U.toFinset.card ≤ U.length := U.toFinset_card_le
      omega
  · intro x
    constructor
    · intro hx
      rw [hasKey_iff] at hx
      obtain ⟨p, hp, hp1⟩ := hx
      have hp2 : p = ("B", ["A"]) ∨ p = ("A", ["B"]) := by simpa using hp
      rcases hp2 with h1 | h1 <;> subst h1
      · exact Or.inr hp1.symm
      · exact Or.inl hp1.symm
    · rintro (rfl | rfl) <;> rfl

/-- Claim C5 witness: the termination statement at the concrete cyclic
graph with universe ["A", "B"]. -/
theorem c5_witness :
    ∃ td, transient_dependencies pipShowAB "A" [] (["A", "B"].length + 1) = some td :=
  c5_termination_and_cycle.1 pipShowAB "A" ["A", "B"] (by decide) (by decide)

/-- Claim C6 counterexample: a first-violating package licensed "Unlicense"
raises InconsistentLicense whose fixed message does not name the offending
package, contradicting the claim that the raised error's message always
names it. -/
theorem c6_counterexample :
    checkCandidates (initLicenseChecker "root" [] [] false false false false false false true)
        [("pkg-u", some "Unlicense")] =
      Except.error (VError.InconsistentLicense unlicenseMsg) ∧
    containsSub unlicenseMsg "pkg-u" = false :=
  ⟨rfl, by decide⟩

/-- Claim C6 (amended): whenever validate fails, the error is the one
produced by the first candidate (root first, then dependencies in
resolution order) that fails its step, no candidate after it affects the
result, and the message names the package for the f-string errors
(PythonLinkingException, UnidirectionalCodeFlow, UnknownLicense) and the
normalized lowercased license for the first two; InconsistentLicense and
BadLicense carry fixed texts. -/
theorem c6_first_violation (pipShow : String → String) (c : LicenseChecker) (fuel : Nat)
    (e : VError) (h : validate pipShow c fuel = some (Except.error e)) :
    ∃ td, transient_dependencies pipShow c.pkg_name [] fuel = some td ∧
      ∃ l1 p l2, candidatesOf pipShow c td = l1 ++ p :: l2 ∧
        (∀ q ∈ l1, candidateStep c q = Except.ok ()) ∧
        candidateStep c p = Except.error e ∧
        (∀ l2b, checkCandidates c (l1 ++ p :: l2b) = Except.error e) ∧
        errNamesPkg e p.1 ∧
        (∀ s, p.2 = some s → errNamesLicense e (pyLower (normalize_license_name s))) := by
  unfold validate at h
  cases htd : transient_dependencies pipShow c.pkg_name [] fuel with
  | none =>
    rw [htd] at h
    cases h
  | some td =>
    rw [htd] at h
    injection h with h2
    obtain ⟨l1, p, l2, heq, h1, hp⟩ := checkCandidates_error_split c _ e h2
    obtain ⟨hn1, hn2⟩ := candidateStep_error_names hp
    refine ⟨td, rfl, l1, p, l2, heq, h1, hp, ?_, hn1, hn2⟩
    intro l2b
    rw [checkCandidates_ok_append c l1 h1]
    simp [checkCandidates, hp]

/-- Claim C6 witness: the amended theorem at the concrete scenario graph,
where the first violation is pkg-b with UnknownLicense. -/
theorem c6_witness :
    ∃ td, transient_dependencies pipShow1
        (initLicenseChecker "root" [] [] false false false false false false true).pkg_name [] 3 =
        some td ∧
      ∃ l1 p l2, candidatesOf pipShow1
          (initLicenseChecker "root" [] [] false false false false false false true) td =
          l1 ++ p :: l2 ∧
        (∀ q ∈ l1, candidateStep
          (initLicenseChecker "root" [] [] false false false false false false true) q =
          Except.ok ()) ∧
        candidateStep (initLicenseChecker "root" [] [] false false false false false false true) p =
          Except.error (VError.UnknownLicense "pkg-b license unknown, no permissions given") ∧
        (∀ l2b, checkCandidates
            (initLicenseChecker "root" [] [] false false false false false false true)
            (l1 ++ p :: l2b) =
          Except.error (VError.UnknownLicense "pkg-b license unknown, no permissions given")) ∧
        errNamesPkg (VError.UnknownLicense "pkg-b license unknown, no permissions given") p.1 ∧
        (∀ s, p.2 = some s →
          errNamesLicense (VError.UnknownLicense "pkg-b license unknown, no permissions given")
            (pyLower (normalize_license_name s))) :=
  c6_first_violation pipShow1
    (initLicenseChecker "root" [] [] false false false false false false true) 3
    (VError.UnknownLicense "pkg-b license unknown, no permissions given") rfl

/-- Claim C7: a candidate whose name (case-insensitively) matches a
whitelisted package is skipped by the validate loop with no license check
at all — the outcome is as if the candidate were absent, whatever its
license (even a missing one). -/
theorem c7_whitelist_skip (p2 : String) (ov : List (String × String)) (W : List String)
    (f1 f2 f3 f4 f5 f6 f7 : Bool) (d : String) (li : Option String)
    (rest : List (String × Option String))
    (h : ∃ w ∈ W, pyLower d = pyLower w) :
    checkCandidates (initLicenseChecker p2 ov W f1 f2 f3 f4 f5 f6 f7) ((pyLower d, li) :: rest) =
      checkCandidates (initLicenseChecker p2 ov W f1 f2 f3 f4 f5 f6 f7) rest := by
  obtain ⟨w, hw, hdw⟩ := h
  have hmem : pyLower d ∈ (initLicenseChecker p2 ov W f1 f2 f3 f4 f5 f6 f7).whitelist := by
    simp only [initLicenseChecker]
    exact List.mem_map.mpr ⟨w, hw, hdw.symm⟩
  simp [checkCandidates, candidateStep, hmem]

/-- Claim C7 witness: a whitelisted (differently-cased) package with a GPL
license is skipped. -/
theorem c7_witness :
    checkCandidates (initLicenseChecker "root" [] ["IdNa"] false false false false false false true)
        [(pyLower "IDNA", some "GPL")] =
      checkCandidates (initLicenseChecker "root" [] ["IdNa"] false false false false false false true)
        [] :=
  c7_whitelist_skip "root" [] ["IdNa"] false false false false false false true "IDNA"
    (some "GPL") [] ⟨"IdNa", by decide, rfl⟩

/-- Claim C8 counterexample: the cache key normalization is not
case-insensitive.  After fetching "pkg_a" (cached under "pkg-a"), a call
with the spelling "PKG-A" of the same name misses the cache and performs a
new fetch, contradicting the claim that any spelling of the same name
returns the cached record without a new fetch. -/
theorem c8_counterexample :
    (get_package_data pipShowC8 (get_package_data pipShowC8 [] "pkg_a" true).2.1 "PKG-A" true).2.2 =
        true ∧
    hasKey (get_package_data pipShowC8 [] "pkg_a" true).2.1 "pkg-a" = true ∧
    hasKey (get_package_data pipShowC8 [] "pkg_a" true).2.1 "PKG-A" = false :=
  ⟨rfl, rfl, rfl⟩

/-- Claim C8 (amended): a call of get_package_data returning a nonempty
record leaves that record in the cache keyed by the trimmed,
underscore-to-hyphen-normalized (case-sensitive) name, and a later call
with any name having the same normalization returns the cached record
without a new fetch. -/
lemma get_package_data_hit (pipShow : String → String) (cache2 : Cache) (m : String)
    (r : PkgData) (h : (dget cache2 (normalizePkgName m)).getD [] = r) (hr : r ≠ []) :
    get_package_data pipShow cache2 m true = (r, cache2, false) := by
  cases r with
  | nil => exact absurd rfl hr
  | cons a as => simp [get_package_data, h]

theorem c8_cache_behavior (pipShow : String → String) (cache : Cache) (n m : String)
    (hne : (get_package_data pipShow cache n true).1 ≠ []) :
    dget (get_package_data pipShow cache n true).2.1 (normalizePkgName n) =
        some (get_package_data pipShow cache n true).1 ∧
    (normalizePkgName m = normalizePkgName n →
      get_package_data pipShow (get_package_data pipShow cache n true).2.1 m true =
        ((get_package_data pipShow cache n true).1,
          (get_package_data pipShow cache n true).2.1, false)) := by
  cases hd : (dget cache (normalizePkgName n)).getD [] with
  | cons q qs =>
    have hres : get_package_data pipShow cache n true = (q :: qs, cache, false) := by
      simp [get_package_data, hd]
    have hsome : dget cache (normalizePkgName n) = some (q :: qs) := by
      cases hg : dget cache (normalizePkgName n) with
      | none => rw [hg] at hd; cases hd
      | some d2 =>
        rw [hg] at hd
        simp only [Option.getD_some] at hd
        rw [hd]
    refine ⟨by rw [hres]; exact hsome, ?_⟩
    intro hm
    rw [hres]
    apply get_package_data_hit
    · rw [hm]
      exact hd
    · intro hc
      cases hc
  | nil =>
    have hdata : (get_package_data pipShow cache n true).1 =
        showData (pipShow (normalizePkgName n)) := by
      simp [get_package_data, hd]
    have hne2 : showData (pipShow (normalizePkgName n)) ≠ [] := by
      rw [← hdata]
      exact hne
    have hcache : (get_package_data pipShow cache n true).2.1 =
        dictInsert cache (normalizePkgName n) (showData (pipShow (normalizePkgName n))) := by
      simp [get_package_data, hd, hne2]
    have hstored : dget (get_package_data pipShow cache n true).2.1 (normalizePkgName n) =
        some (showData (pipShow (normalizePkgName n))) := by
      rw [hcache]
      exact dget_dictInsert_self cache (normalizePkgName n) _
    refine ⟨by rw [hstored, hdata], ?_⟩
    intro hm
    rw [hdata]
    apply get_package_data_hit
    · rw [hm, hstored]
      rfl
    · exact hne2

/-- Claim C8 witness: the amended theorem at a concrete fetch, with a
second spelling differing only in whitespace and underscores. -/
theorem c8_witness :
    get_package_data pipShowC8 (get_package_data pipShowC8 [] "pkg_a" true).2.1 " pkg_a " true =
      ((get_package_data pipShowC8 [] "pkg_a" true).1,
        (get_package_data pipShowC8 [] "pkg_a" true).2.1, false) :=
  (c8_cache_behavior pipShowC8 [] "pkg_a" " pkg_a " (by decide)).2 (by decide)

/-- Claim C9: once transient_dependencies has completed, computing it again
from the resulting stored dict (with any fuel, and no intervening state
change) returns the same dict: every direct dependency of the root is
already a key, so the frontier is empty and the loop exits at once. -/
theorem c9_idempotent (pipShow : String → String) (root : String) (td0 r : DepDict)
    (fuel fuel2 : Nat) (h : transient_dependencies pipShow root td0 fuel = some r) :
    transient_dependencies pipShow root r fuel2 = some r := by
  unfold transient_dependencies at h ⊢
  obtain ⟨hmono, hnd⟩ := tdLoop_keys pipShow fuel td0 _ r h
  have hall : ∀ d ∈ dependencies pipShow root, hasKey r d = true := by
    intro d hd
    by_cases hk : hasKey td0 d = true
    · exact hmono d hk
    · apply hnd
      rw [List.mem_filter]
      refine ⟨hd, ?_⟩
      simp [hk]
  have hfil : (dependencies pipShow root).filter (fun k => !(hasKey r k)) = [] := by
    rw [List.filter_eq_nil_iff]
    intro a ha
    simp [hall a ha]
  rw [hfil]
  cases fuel2 <;> rfl

/-- Claim C9 witness: idempotence at the concrete cyclic graph. -/
theorem c9_witness :
    transient_dependencies pipShowAB "A" [("B", ["A"]), ("A", ["B"])] 0 =
      some [("B", ["A"]), ("A", ["B"])] :=
  c9_idempotent pipShowAB "A" [] [("B", ["A"]), ("A", ["B"])] 3 0 rfl

/-- Claim C10: in the constructor defaults, every allow flag is false except
allow_public_domain (true); consequently a default-constructed checker
accepts a "public domain" license while rejecting GPL-family tokens,
Unlicense, and unknown licenses. -/
theorem c10_defaults :
    ({ pkg_name := "root" } : LicenseChecker).allow_public_domain = true ∧
    ({ pkg_name := "root" } : LicenseChecker).allow_nonfree = false ∧
    ({ pkg_name := "root" } : LicenseChecker).allow_viral = false ∧
    ({ pkg_name := "root" } : LicenseChecker).allow_unknown = false ∧
    ({ pkg_name := "root" } : LicenseChecker).allow_unlicense = false ∧
    ({ pkg_name := "root" } : LicenseChecker).allow_lgpl = false ∧
    ({ pkg_name := "root" } : LicenseChecker).allow_ambiguous = false ∧
    checkOne { pkg_name := "root" } "dep" (some "Public Domain") = Except.ok () ∧
    checkOne { pkg_name := "root" } "dep" (some "GPL-3.0") =
      Except.error (VError.UnidirectionalCodeFlow
        "dep is licensed under gpl-3.0 which places restrictions in larger works") ∧
    checkOne { pkg_name := "root" } "dep" (some "Unlicense") =
      Except.error (VError.InconsistentLicense unlicenseMsg) ∧
    checkOne { pkg_name := "root" } "dep" (some "WTFPL") =
      Except.error (VError.UnknownLicense "dep license unknown, no permissions given") :=
  ⟨rfl, rfl, rfl, rfl, rfl, rfl, rfl, rfl, rfl, rfl, rfl⟩

end Lichecker
